import Mathlib

/-
Verification of the social-engineering-detector core pipeline:
base64 codec and AES-GCM envelope encryption wrappers (crypto package),
key manager cache (crypto.KeyManager), token-bucket rate limiter and
multi-provider failover client (llm package), and the message processor
cycle (message_processor.Processor.Run).

Bytes are modelled as `Nat` values below 256, byte strings as `List Nat`,
Go strings as `List Char`, and the Go `int64` / `int` types as `Int`
where values can be negative and as `Nat` for pure counters.
-/

set_option autoImplicit false

namespace SED

/-! ## Base64 (Go encoding/base64 StdEncoding) -/

/-- The standard base64 alphabet used by Go's StdEncoding. -/
def b64alphabet : List Char :=
  [ 'A', 'B', 'C', 'D', 'E', 'F', 'G', 'H', 'I', 'J', 'K', 'L', 'M',
    'N', 'O', 'P', 'Q', 'R', 'S', 'T', 'U', 'V', 'W', 'X', 'Y', 'Z',
    'a', 'b', 'c', 'd', 'e', 'f', 'g', 'h', 'i', 'j', 'k', 'l', 'm',
    'n', 'o', 'p', 'q', 'r', 's', 't', 'u', 'v', 'w', 'x', 'y', 'z',
    '0', '1', '2', '3', '4', '5', '6', '7', '8', '9', '+', '/' ]

/-- Character for a six-bit value. -/
def b64char (n : Nat) : Char := b64alphabet.getD n 'A'

/-- Inverse lookup of the base64 alphabet. -/
def b64val (c : Char) : Option Nat := b64alphabet.indexOf? c

/-- Base64 encoding of a byte sequence, with `=` padding, grouping three
bytes into four sextet characters as Go's EncodeToString does. -/
def b64encode : List Nat → List Char
  | [] => []
  | [b1] => [b64char (b1 / 4), b64char (b1 % 4 * 16), '=', '=']
  | [b1, b2] =>
      [b64char (b1 / 4), b64char (b1 % 4 * 16 + b2 / 16), b64char (b2 % 16 * 4), '=']
  | b1 :: b2 :: b3 :: rest =>
      b64char (b1 / 4) :: b64char (b1 % 4 * 16 + b2 / 16) ::
      b64char (b2 % 16 * 4 + b3 / 64) :: b64char (b3 % 64) :: b64encode rest

/-- Base64 decoding of four-character groups with `=` padding, as Go's
DecodeString does; returns `none` on malformed input. -/
def b64decode : List Char → Option (List Nat)
  | [] => some []
  | a :: b :: c :: d :: rest =>
    match b64val a, b64val b with
    | some va, some vb =>
      if c = '=' then
        if d = '=' ∧ rest = [] then some [va * 4 + vb / 16] else none
      else
        match b64val c with
        | some vc =>
          if d = '=' then
            if rest = [] then some [va * 4 + vb / 16, vb % 16 * 16 + vc / 4] else none
          else
            match b64val d with
            | some vd =>
              match b64decode rest with
              | some bs =>
                  some ((va * 4 + vb / 16) :: (vb % 16 * 16 + vc / 4) ::
                        (vc % 4 * 64 + vd) :: bs)
              | none => none
            | none => none
        | none => none
    | _, _ => none
  | _ => none

theorem b64val_b64char : ∀ n < 64, b64val (b64char n) = some n := by decide

theorem b64char_ne_pad : ∀ n < 64, b64char n ≠ '=' := by decide

/-- Decoding inverts encoding on valid byte sequences. -/
theorem b64decode_b64encode (l : List Nat) (h : ∀ b ∈ l, b < 256) :
    b64decode (b64encode l) = some l := by
  induction l using b64encode.induct with
  | case1 => rfl
  | case2 b1 =>
      have hb1 : b1 < 256 := h b1 (by simp)
      have e1 := b64val_b64char (b1 / 4) (by omega)
      have e2 := b64val_b64char (b1 % 4 * 16) (by omega)
      simp [b64encode, b64decode, e1, e2]
      omega
  | case3 b1 b2 =>
      have hb1 : b1 < 256 := h b1 (by simp)
      have hb2 : b2 < 256 := h b2 (by simp)
      have e1 := b64val_b64char (b1 / 4) (by omega)
      have e2 := b64val_b64char (b1 % 4 * 16 + b2 / 16) (by omega)
      have e3 := b64val_b64char (b2 % 16 * 4) (by omega)
      have ne3 := b64char_ne_pad (b2 % 16 * 4) (by omega)
      simp [b64encode, b64decode, e1, e2, e3, ne3]
      omega
  | case4 b1 b2 b3 rest ih =>
      have hb1 : b1 < 256 := h b1 (by simp)
      have hb2 : b2 < 256 := h b2 (by simp)
      have hb3 : b3 < 256 := h b3 (by simp)
      have hrest : ∀ b ∈ rest, b < 256 := fun b hb => h b (by simp [hb])
      have e1 := b64val_b64char (b1 / 4) (by omega)
      have e2 := b64val_b64char (b1 % 4 * 16 + b2 / 16) (by omega)
      have e3 := b64val_b64char (b2 % 16 * 4 + b3 / 64) (by omega)
      have e4 := b64val_b64char (b3 % 64) (by omega)
      have ne3 := b64char_ne_pad (b2 % 16 * 4 + b3 / 64) (by omega)
      have ne4 := b64char_ne_pad (b3 % 64) (by omega)
      simp [b64encode, b64decode, e1, e2, e3, e4, ne3, ne4, ih hrest]
      omega

/-- Encoding a nonempty byte sequence yields a nonempty string. -/
theorem b64encode_ne_nil (l : List Nat) (h : l ≠ []) : b64encode l ≠ [] := by
  match l with
  | [] => exact absurd rfl h
  | [b1] => simp [b64encode]
  | [b1, b2] => simp [b64encode]
  | b1 :: b2 :: b3 :: rest => simp [b64encode]

/-! ## AEAD abstraction (Go crypto/cipher GCM over AES-256)

The Go code delegates sealing and opening to the standard library's
AES-GCM implementation. It is modelled as an abstract authenticated
encryption scheme carrying the library's correctness guarantee: opening
a sealed message with the same nonce recovers the plaintext, and sealed
output consists of bytes. -/

structure AEADScheme where
  nonceSize : Nat
  sealB : List Nat → List Nat → List Nat
  openB : List Nat → List Nat → Option (List Nat)
  openB_sealB : ∀ n p, openB n (sealB n p) = some p
  sealB_bytes : ∀ n p, (∀ b ∈ n, b < 256) → (∀ b ∈ p, b < 256) →
    ∀ b ∈ sealB n p, b < 256

/-- Error values of the crypto package. -/
inductive CryptoErr where
  | invalidKeySize
  | badBase64
  | invalidCiphertext
  | decryptionFailed
  deriving DecidableEq, Repr

/-- Go `crypto.Encrypt`: AES-256-GCM encryption returning
base64(nonce concatenated with sealed bytes). The random nonce drawn
from crypto/rand is passed explicitly. -/
def Encrypt (g : AEADScheme) (plaintext : List Nat) (key : List Nat)
    (nonce : List Nat) : Except CryptoErr (List Char) :=
  if key.length ≠ 32 then .error .invalidKeySize
  else .ok (b64encode (nonce ++ g.sealB nonce plaintext))

/-- Go `crypto.Decrypt`: base64-decode, split off the nonce prefix,
and open the remainder with AES-256-GCM. -/
def Decrypt (g : AEADScheme) (ctB64 : List Char) (key : List Nat) :
    Except CryptoErr (List Nat) :=
  if key.length ≠ 32 then .error .invalidKeySize
  else
    match b64decode ctB64 with
    | none => .error .badBase64
    | some ct =>
      if ct.length < g.nonceSize then .error .invalidCiphertext
      else
        match g.openB (ct.take g.nonceSize) (ct.drop g.nonceSize) with
        | some pt => .ok pt
        | none => .error .decryptionFailed

/-- Claim C6: for every plaintext and every 32-byte key, decrypting the
encryption of the plaintext under the same key returns exactly the
original plaintext, over the base64(nonce ++ sealed) format produced by
AES-256-GCM, for any nonce of the scheme's nonce size. -/
theorem C6_encrypt_decrypt_roundtrip (g : AEADScheme) (pt key nonce : List Nat)
    (hkey : key.length = 32) (hnlen : nonce.length = g.nonceSize)
    (hn : ∀ b ∈ nonce, b < 256) (hp : ∀ b ∈ pt, b < 256) :
    ∃ ct, Encrypt g pt key nonce = .ok ct ∧ Decrypt g ct key = .ok pt := by
  refine ⟨b64encode (nonce ++ g.sealB nonce pt), ?_, ?_⟩
  · simp [Encrypt, hkey]
  · have hbytes : ∀ b ∈ nonce ++ g.sealB nonce pt, b < 256 := by
      intro b hb
      rcases List.mem_append.mp hb with h1 | h2
      · exact hn b h1
      · exact g.sealB_bytes nonce pt hn hp b h2
    have hdec := b64decode_b64encode (nonce ++ g.sealB nonce pt) hbytes
    have hlen : (nonce ++ g.sealB nonce pt).length = nonce.length + (g.sealB nonce pt).length :=
      List.length_append _ _
    rw [Decrypt, if_neg (by omega)]
    simp only [hdec]
    have hnotshort : ¬ (nonce ++ g.sealB nonce pt).length < g.nonceSize := by omega
    rw [if_neg hnotshort]
    have htake : (nonce ++ g.sealB nonce pt).take g.nonceSize = nonce := by
      rw [← hnlen]
      exact List.take_left nonce _
    have hdrop : (nonce ++ g.sealB nonce pt).drop g.nonceSize = g.sealB nonce pt := by
      rw [← hnlen]
      exact List.drop_left nonce _
    rw [htake, hdrop, g.openB_sealB]

/-- Concrete instance of the AEAD interface used by witnesses: sealing
appends a fixed tag byte, opening strips and checks it. -/
def tagAEAD : AEADScheme where
  nonceSize := 12
  sealB := fun _ p => p ++ [7]
  openB := fun _ c => if c.getLast? = some 7 then some c.dropLast else none
  openB_sealB := by
    intro n p
    simp
  sealB_bytes := by
    intro n p _ hp b hb
    rcases List.mem_append.mp hb with h1 | h2
    · exact hp b h1
    · simp at h2
      omega

theorem C6_witness :
    ((List.replicate 32 0 : List Nat).length = 32 ∧
      (List.replicate 12 0 : List Nat).length = tagAEAD.nonceSize) ∧
    ∃ ct, Encrypt tagAEAD [104, 105] (List.replicate 32 0) (List.replicate 12 0) = .ok ct ∧
      Decrypt tagAEAD ct (List.replicate 32 0) = .ok [104, 105] :=
  ⟨⟨by decide, by decide⟩,
    C6_encrypt_decrypt_roundtrip tagAEAD [104, 105] (List.replicate 32 0)
      (List.replicate 12 0) (by decide) (by decide) (by decide) (by decide)⟩

end SED

namespace SED

/-! ## KeyManager (Go backend/internal/crypto key_manager) -/

/-- Error values surfaced by the key manager. -/
inductive KMErr where
  | dataKeyDecryptFailed
  | cryptoFailure (e : CryptoErr)
  deriving DecidableEq, Repr

/-- Go `crypto.KeyManager`: master key plus the in-memory cache of
decrypted per-user data keys (`dataKeys map[int64][]byte`), modelled as
an association list read through `List.lookup`. -/
structure KeyManager where
  masterKey : List Nat
  dataKeys : List (Int × List Nat)
  deriving DecidableEq, Repr

/-- Go `KeyManager.GetCachedDataKey`. -/
def GetCachedDataKey (km : KeyManager) (userID : Int) : Option (List Nat) :=
  km.dataKeys.lookup userID

/-- Go `KeyManager.CacheDataKey`: map assignment, modelled by shadowing. -/
def CacheDataKey (km : KeyManager) (userID : Int) (dataKey : List Nat) : KeyManager :=
  { km with dataKeys := (userID, dataKey) :: km.dataKeys }

/-- Go `KeyManager.DecryptDataKey`: decrypt the wrapped key under the
master key, then base64-decode the resulting string into raw key bytes;
both failure modes collapse to `ErrDataKeyDecryptFailed`. -/
def DecryptDataKey (g : AEADScheme) (km : KeyManager) (encryptedDK : List Char) :
    Except KMErr (List Nat) :=
  match Decrypt g encryptedDK km.masterKey with
  | .error _ => .error .dataKeyDecryptFailed
  | .ok ptBytes =>
    match b64decode (ptBytes.map Char.ofNat) with
    | none => .error .dataKeyDecryptFailed
    | some dataKey => .ok dataKey

/-- Go `KeyManager.LoadDataKey`: consult the cache first and only on a
miss decrypt under the master key and cache the result. The third
component counts master-key decrypt invocations performed by the call. -/
def LoadDataKey (g : AEADScheme) (km : KeyManager) (userID : Int)
    (encryptedDK : List Char) : Except KMErr (List Nat) × KeyManager × Nat :=
  match GetCachedDataKey km userID with
  | some dataKey => (.ok dataKey, km, 0)
  | none =>
    match DecryptDataKey g km encryptedDK with
    | .error e => (.error e, km, 1)
    | .ok dataKey => (.ok dataKey, CacheDataKey km userID dataKey, 1)

/-- Lift a crypto-layer result into the key-manager error space. -/
def liftCrypto {α : Type} : Except CryptoErr α → Except KMErr α
  | .ok a => .ok a
  | .error e => .error (.cryptoFailure e)

/-- Go `KeyManager.EncryptMessage`: resolve the user's data key via
`LoadDataKey`, then `Encrypt` the plaintext under it. -/
def EncryptMessage (g : AEADScheme) (km : KeyManager) (plaintext : List Nat)
    (userID : Int) (encryptedDK : List Char) (nonce : List Nat) :
    Except KMErr (List Char) × KeyManager × Nat :=
  match LoadDataKey g km userID encryptedDK with
  | (.error e, km1, c) => (.error e, km1, c)
  | (.ok dataKey, km1, c) => (liftCrypto (Encrypt g plaintext dataKey nonce), km1, c)

/-- Go `KeyManager.DecryptMessage`: resolve the user's data key via
`LoadDataKey`, then `Decrypt` the ciphertext under it. -/
def DecryptMessage (g : AEADScheme) (km : KeyManager) (ciphertext : List Char)
    (userID : Int) (encryptedDK : List Char) :
    Except KMErr (List Nat) × KeyManager × Nat :=
  match LoadDataKey g km userID encryptedDK with
  | (.error e, km1, c) => (.error e, km1, c)
  | (.ok dataKey, km1, c) => (liftCrypto (Decrypt g ciphertext dataKey), km1, c)

/-- Claim C10: after one successful `LoadDataKey` for an owner id, every
later `LoadDataKey`, `EncryptMessage` or `DecryptMessage` call for the
same owner returns or uses the identical cached raw key, performs zero
further master-key decrypt operations, leaves the cache unchanged, and
ignores the wrapped-key argument entirely (even an invalid one). -/
theorem C10_key_cache_hit (g : AEADScheme) (km km1 : KeyManager) (userID : Int)
    (encryptedDK : List Char) (k : List Nat) (n : Nat)
    (h : LoadDataKey g km userID encryptedDK = (.ok k, km1, n)) :
    ∀ encryptedDK2 : List Char,
      LoadDataKey g km1 userID encryptedDK2 = (.ok k, km1, 0) ∧
      (∀ pt nonce, EncryptMessage g km1 pt userID encryptedDK2 nonce =
        (liftCrypto (Encrypt g pt k nonce), km1, 0)) ∧
      (∀ ct, DecryptMessage g km1 ct userID encryptedDK2 =
        (liftCrypto (Decrypt g ct k), km1, 0)) := by
  intro encryptedDK2
  have hcache : GetCachedDataKey km1 userID = some k := by
    unfold LoadDataKey at h
    cases hc : GetCachedDataKey km userID with
    | some dk =>
        rw [hc] at h
        simp only [Prod.mk.injEq, Except.ok.injEq] at h
        obtain ⟨h1, h2, -⟩ := h
        rw [← h2, hc, h1]
    | none =>
        rw [hc] at h
        cases hd : DecryptDataKey g km encryptedDK with
        | error e => rw [hd] at h; simp at h
        | ok dk =>
            rw [hd] at h
            simp only [Prod.mk.injEq, Except.ok.injEq] at h
            obtain ⟨h1, h2, -⟩ := h
            rw [← h2, ← h1]
            simp [GetCachedDataKey, CacheDataKey]
  have hload : LoadDataKey g km1 userID encryptedDK2 = (.ok k, km1, 0) := by
    unfold LoadDataKey
    rw [hcache]
  refine ⟨hload, ?_, ?_⟩
  · intro pt nonce
    unfold EncryptMessage
    rw [hload]
  · intro ct
    unfold DecryptMessage
    rw [hload]

theorem C10_witness :
    LoadDataKey tagAEAD ⟨List.replicate 32 0, [(1, List.replicate 32 5)]⟩ 1 [] =
      (.ok (List.replicate 32 5), ⟨List.replicate 32 0, [(1, List.replicate 32 5)]⟩, 0) ∧
    (LoadDataKey tagAEAD ⟨List.replicate 32 0, [(1, List.replicate 32 5)]⟩ 1 ['z'] =
      (.ok (List.replicate 32 5), ⟨List.replicate 32 0, [(1, List.replicate 32 5)]⟩, 0) ∧
     (∀ pt nonce, EncryptMessage tagAEAD ⟨List.replicate 32 0, [(1, List.replicate 32 5)]⟩
        pt 1 ['z'] nonce =
        (liftCrypto (Encrypt tagAEAD pt (List.replicate 32 5) nonce),
         ⟨List.replicate 32 0, [(1, List.replicate 32 5)]⟩, 0)) ∧
     (∀ ct, DecryptMessage tagAEAD ⟨List.replicate 32 0, [(1, List.replicate 32 5)]⟩
        ct 1 ['z'] =
        (liftCrypto (Decrypt tagAEAD ct (List.replicate 32 5)),
         ⟨List.replicate 32 0, [(1, List.replicate 32 5)]⟩, 0))) :=
  ⟨by rfl,
   C10_key_cache_hit tagAEAD ⟨List.replicate 32 0, [(1, List.replicate 32 5)]⟩
     ⟨List.replicate 32 0, [(1, List.replicate 32 5)]⟩ 1 [] (List.replicate 32 5) 0
     (by rfl) ['z']⟩

end SED

namespace SED

/-! ## RateLimiter (Go annotation-service llm package, token bucket)

Time is modelled in nanoseconds as `Nat`. The limiter's single mutex is
modelled explicitly because `Wait` unlocks it before blocking: unlocking
an already-unlocked Go `sync.Mutex` is a runtime fatal error, modelled
by `unlockMutex` returning `none`. -/

/-- One minute in nanoseconds, Go's `time.Minute`. -/
def minuteNS : Nat := 60000000000

/-- Go `llm.RateLimiter` state (the mutex is threaded separately). -/
structure RateLimiter where
  tokens : Int
  maxTokens : Int
  refillRate : Nat
  lastRefill : Nat
  requestsThisMin : Nat
  minuteResetTime : Nat
  deriving DecidableEq, Repr

/-- Go `llm.NewRateLimiter`. -/
def NewRateLimiter (requestsPerMinute : Nat) (now : Nat) : RateLimiter :=
  { tokens := requestsPerMinute
    maxTokens := requestsPerMinute
    refillRate := minuteNS / requestsPerMinute
    lastRefill := now
    requestsThisMin := 0
    minuteResetTime := now + minuteNS }

/-- Unlock of a Go `sync.Mutex`: on an unlocked mutex this is a runtime
fatal error, returned as `none`. -/
def unlockMutex (locked : Bool) : Option Bool :=
  if locked then some false else none

/-- Result of one `Wait` call: success or context cancellation carry the
new limiter state and the wall-clock return time; `fatal` is an
unrecoverable runtime crash. -/
inductive WaitRes where
  | ok (rl : RateLimiter) (finish : Nat)
  | cancelled (rl : RateLimiter) (finish : Nat)
  | fatal
  deriving DecidableEq, Repr

/-- Steps 1 of `Wait`: reset the per-minute window when it has elapsed. -/
def resetPhase (rl : RateLimiter) (now : Nat) : RateLimiter :=
  if now > rl.minuteResetTime then
    { rl with
        requestsThisMin := 0, minuteResetTime := now + minuteNS,
        tokens := rl.maxTokens, lastRefill := now }
  else rl

/-- Steps 1-2 of `Wait`: minute reset then elapsed-time token refill
capped at `maxTokens`. -/
def refillPhase (rl : RateLimiter) (now : Nat) : RateLimiter :=
  let rl1 := resetPhase rl now
  let tokensToAdd : Int := Int.ofNat ((now - rl1.lastRefill) / rl1.refillRate)
  if tokensToAdd > 0 then
    let t2 := rl1.tokens + tokensToAdd
    { rl1 with
        tokens := if t2 > rl1.maxTokens then rl1.maxTokens else t2,
        lastRefill := now }
  else rl1

/-- The deferred `rl.mu.Unlock()` at function exit. -/
def deferredUnlock (locked : Bool) (normal : WaitRes) : WaitRes :=
  match unlockMutex locked with
  | some _ => normal
  | none => WaitRes.fatal

/-- Go `RateLimiter.Wait`, sequentially: minute reset, refill, then
either consume an available token immediately, or unlock and block for
one refill interval (force-setting the bucket to one token) unless the
context is cancelled while blocked, in which case the function returns
while the mutex is unlocked and the deferred unlock fires on an
unlocked mutex. -/
def waitGo (rl : RateLimiter) (now : Nat) (cancelWhileBlocked : Bool) : WaitRes :=
  let r := refillPhase rl now
  if r.tokens ≤ 0 then
    if cancelWhileBlocked then
      deferredUnlock false (WaitRes.cancelled r now)
    else
      let fin := now + r.refillRate
      let r2 := { r with tokens := 1, lastRefill := fin }
      let r3 := { r2 with tokens := r2.tokens - 1, requestsThisMin := r2.requestsThisMin + 1 }
      deferredUnlock true (WaitRes.ok r3 fin)
  else
    let r3 := { r with tokens := r.tokens - 1, requestsThisMin := r.requestsThisMin + 1 }
    deferredUnlock true (WaitRes.ok r3 now)

/-- Sequential execution trace of `Wait` calls against one limiter:
each call starts `gap` after the previous call returned. -/
structure CallEv where
  gap : Nat
  cancelWhileBlocked : Bool

/-- Trace state: limiter, wall clock, return times of successful calls,
and whether the process has crashed. -/
structure TraceState where
  rl : RateLimiter
  clock : Nat
  successTimes : List Nat
  dead : Bool

/-- Execute one `Wait` call of the trace. -/
def stepCall (ts : TraceState) (ev : CallEv) : TraceState :=
  if ts.dead then ts
  else
    let t := ts.clock + ev.gap
    match waitGo ts.rl t ev.cancelWhileBlocked with
    | .ok rl2 fin =>
        { rl := rl2, clock := fin, successTimes := ts.successTimes ++ [fin], dead := false }
    | .cancelled rl2 fin =>
        { rl := rl2, clock := fin, successTimes := ts.successTimes, dead := false }
    | .fatal => { ts with dead := true }

/-- Run a whole trace from a freshly constructed limiter. -/
def runTrace (requestsPerMinute : Nat) (evs : List CallEv) : TraceState :=
  evs.foldl stepCall
    { rl := NewRateLimiter requestsPerMinute 0, clock := 0, successTimes := [], dead := false }

/-- Number of successful `Wait` returns inside the rolling 60-second
window starting at `t`. -/
def countInWindow (times : List Nat) (t : Nat) : Nat :=
  (times.filter (fun x => decide (t ≤ x) && decide (x < t + minuteNS))).length

/-- Claim C2, counterexample: with rate 2 per minute, three back-to-back
calls all succeed within the first rolling 60-second window (two from
the initial burst capacity, a third after blocking one refill interval),
so the limiter does not bound successes per rolling minute by the rate. -/
theorem C2_counterexample :
    ¬ ∀ (requestsPerMinute : Nat) (evs : List CallEv) (t : Nat),
        countInWindow (runTrace requestsPerMinute evs).successTimes t ≤ requestsPerMinute := by
  intro hclaim
  have h := hclaim 2 [⟨0, false⟩, ⟨0, false⟩, ⟨0, false⟩] 0
  have he : countInWindow
      (runTrace 2 [⟨0, false⟩, ⟨0, false⟩, ⟨0, false⟩]).successTimes 0 = 3 := by rfl
  omega

/-- Claim C2, amended: the limiter enforces only per-call token-bucket
admission, not a rolling-window bound. Every successful `Wait` either
finds a positive token count after the minute-reset and refill phases
and returns at once with the count decremented and the per-minute
counter incremented, or finds none, blocks for exactly one refill
interval, and returns with the bucket force-set to one token and
immediately consumed to zero. -/
theorem C2_token_bucket_per_call (rl : RateLimiter) (now : Nat) (cancel : Bool)
    (rl2 : RateLimiter) (fin : Nat)
    (h : waitGo rl now cancel = .ok rl2 fin) :
    (0 < (refillPhase rl now).tokens ∧ fin = now ∧
      rl2 = { refillPhase rl now with
              tokens := (refillPhase rl now).tokens - 1,
              requestsThisMin := (refillPhase rl now).requestsThisMin + 1 }) ∨
    ((refillPhase rl now).tokens ≤ 0 ∧ cancel = false ∧
      fin = now + (refillPhase rl now).refillRate ∧
      rl2 = { refillPhase rl now with
              tokens := 0,
              requestsThisMin := (refillPhase rl now).requestsThisMin + 1,
              lastRefill := now + (refillPhase rl now).refillRate }) := by
  unfold waitGo deferredUnlock unlockMutex at h
  by_cases hz : (refillPhase rl now).tokens ≤ 0
  · rw [if_pos hz] at h
    by_cases hcan : cancel = true
    · rw [if_pos hcan] at h
      cases h
    · rw [if_neg hcan] at h
      cases h
      right
      refine ⟨hz, by simpa using hcan, rfl, ?_⟩
      norm_num
  · rw [if_neg hz] at h
    cases h
    left
    exact ⟨by omega, rfl, rfl⟩

theorem C2_token_bucket_per_call_witness :
    waitGo (NewRateLimiter 1 0) 0 false =
      .ok { tokens := 0, maxTokens := 1, refillRate := minuteNS, lastRefill := 0,
            requestsThisMin := 1, minuteResetTime := minuteNS } 0 ∧
    ((0 < (refillPhase (NewRateLimiter 1 0) 0).tokens ∧ (0 : Nat) = 0 ∧
      ({ tokens := 0, maxTokens := 1, refillRate := minuteNS, lastRefill := 0,
         requestsThisMin := 1, minuteResetTime := minuteNS } : RateLimiter) =
        { refillPhase (NewRateLimiter 1 0) 0 with
          tokens := (refillPhase (NewRateLimiter 1 0) 0).tokens - 1,
          requestsThisMin := (refillPhase (NewRateLimiter 1 0) 0).requestsThisMin + 1 }) ∨
     ((refillPhase (NewRateLimiter 1 0) 0).tokens ≤ 0 ∧ false = false ∧
      (0 : Nat) = 0 + (refillPhase (NewRateLimiter 1 0) 0).refillRate ∧
      ({ tokens := 0, maxTokens := 1, refillRate := minuteNS, lastRefill := 0,
         requestsThisMin := 1, minuteResetTime := minuteNS } : RateLimiter) =
        { refillPhase (NewRateLimiter 1 0) 0 with
          tokens := 0,
          requestsThisMin := (refillPhase (NewRateLimiter 1 0) 0).requestsThisMin + 1,
          lastRefill := 0 + (refillPhase (NewRateLimiter 1 0) 0).refillRate })) :=
  ⟨by decide, C2_token_bucket_per_call (NewRateLimiter 1 0) 0 false _ 0 (by decide)⟩

/-- Claim C3: a `Wait` call that blocks (no token available after reset
and refill) and whose context is cancelled while blocked does not return
a clean cancellation error: the mutex was unlocked before blocking and
the early return fires the deferred unlock on an unlocked mutex, an
unrecoverable runtime fatal error. -/
theorem C3_cancel_while_blocked_fatal (rl : RateLimiter) (now : Nat)
    (hblocked : (refillPhase rl now).tokens ≤ 0) :
    waitGo rl now true = .fatal := by
  unfold waitGo deferredUnlock unlockMutex
  rw [if_pos hblocked]
  rfl

theorem C3_cancel_while_blocked_fatal_witness :
    ((refillPhase { tokens := 0, maxTokens := 1, refillRate := minuteNS, lastRefill := 0,
                    requestsThisMin := 1, minuteResetTime := minuteNS } 5).tokens ≤ 0) ∧
    waitGo { tokens := 0, maxTokens := 1, refillRate := minuteNS, lastRefill := 0,
             requestsThisMin := 1, minuteResetTime := minuteNS } 5 true = .fatal :=
  ⟨by decide,
   C3_cancel_while_blocked_fatal
     { tokens := 0, maxTokens := 1, refillRate := minuteNS, lastRefill := 0,
       requestsThisMin := 1, minuteResetTime := minuteNS } 5 (by decide)⟩

end SED

namespace SED

/-! ## Multi-provider failover client (Go llm.MultiProviderClient) -/

/-- Go helper `findInString`: scan for an occurrence of `sub` at any
offset of `s`. -/
def findInString : List Char → List Char → Bool
  | [], sub => sub.isEmpty
  | ch :: rest, sub =>
      if sub.length ≤ (ch :: rest).length then
        if (ch :: rest).take sub.length == sub then true
        else findInString rest sub
      else false

/-- Go helper `contains`: substring test with the source's explicit
same-length, head-slice and tail-slice special cases. -/
def containsGo (s sub : List Char) : Bool :=
  decide (s.length ≥ sub.length) &&
    (s == sub ||
      (decide (s.length > sub.length) &&
        (s.take sub.length == sub ||
         s.drop (s.length - sub.length) == sub ||
         findInString s sub)))

/-- Go `llm.isRateLimitError`: the error text mentions 429, quota or
rate limit. -/
def isRateLimitError (e : List Char) : Bool :=
  containsGo e ['4', '2', '9'] ||
  containsGo e ['q', 'u', 'o', 't', 'a'] ||
  containsGo e ['r', 'a', 't', 'e', ' ', 'l', 'i', 'm', 'i', 't']

/-- Go `llm.MultiProviderClient` state: the fixed provider list is kept
as its length, with the cyclic cursor, the per-provider consecutive
failure counters (`failureCount map[int]int`, default zero), and the
switch threshold. -/
structure MPC where
  numProviders : Nat
  currentIndex : Nat
  failureCount : Nat → Nat
  maxFailures : Nat

/-- Go `MultiProviderClient.switchToNextProvider`. -/
def switchToNextProvider (c : MPC) : MPC :=
  { c with currentIndex := (c.currentIndex + 1) % c.numProviders }

/-- Go `MultiProviderClient.recordFailure`: increment the counter and
report whether the threshold is reached. -/
def recordFailure (c : MPC) (i : Nat) : MPC × Bool :=
  let fc := fun j => if j = i then c.failureCount i + 1 else c.failureCount j
  ({ c with failureCount := fc }, decide (fc i ≥ c.maxFailures))

/-- Go `MultiProviderClient.resetFailureCount`. -/
def resetFailureCount (c : MPC) (i : Nat) : MPC :=
  { c with failureCount := fun j => if j = i then 0 else c.failureCount j }

/-- The failure-handling path of one loop iteration of
`MultiProviderClient.Annotate`: record the failure, then switch to the
next provider when the threshold is reached or the error is
rate-limit-flavoured. -/
def onFailure (c : MPC) (i : Nat) (e : List Char) : MPC :=
  let rec1 := recordFailure c i
  if rec1.2 || isRateLimitError e then switchToNextProvider rec1.1 else rec1.1

/-- Outcome of `MultiProviderClient.Annotate`. -/
inductive AnnotateRes where
  | success (providerIndex : Nat)
  | allProvidersFailed
  deriving DecidableEq, Repr

/-- The attempt loop of `MultiProviderClient.Annotate`. The oracle maps
(attempt number, provider index) to `none` for success or `some err`
for a failure with that error text; the third result component is the
ghost trace of (attempt, provider index) pairs actually tried. -/
def annotateAux (oracle : Nat → Nat → Option (List Char)) :
    Nat → MPC → Nat → AnnotateRes × MPC × List (Nat × Nat)
  | 0, c, _ => (.allProvidersFailed, c, [])
  | remaining + 1, c, attempt =>
    let idx := c.currentIndex
    match oracle attempt idx with
    | none => (.success idx, resetFailureCount c idx, [(attempt, idx)])
    | some e =>
      let r := annotateAux oracle remaining (onFailure c idx e) (attempt + 1)
      (r.1, r.2.1, (attempt, idx) :: r.2.2)

/-- Go `MultiProviderClient.Annotate`: up to `len(providers)` attempts,
each against the provider selected by `currentIndex`. -/
def Annotate (oracle : Nat → Nat → Option (List Char)) (c : MPC) :
    AnnotateRes × MPC × List (Nat × Nat) :=
  annotateAux oracle c.numProviders c 0

theorem annotateAux_allFailed_iff (oracle : Nat → Nat → Option (List Char)) :
    ∀ (remaining : Nat) (c : MPC) (attempt : Nat),
      (annotateAux oracle remaining c attempt).1 = .allProvidersFailed ↔
        ((annotateAux oracle remaining c attempt).2.2.length = remaining ∧
         ∀ p ∈ (annotateAux oracle remaining c attempt).2.2, oracle p.1 p.2 ≠ none) := by
  intro remaining
  induction remaining with
  | zero =>
      intro c attempt
      simp [annotateAux]
  | succ n ih =>
      intro c attempt
      cases ho : oracle attempt c.currentIndex with
      | none =>
          simp only [annotateAux, ho]
          constructor
          · intro hres
            cases hres
          · intro hrhs
            exact absurd ho (hrhs.2 (attempt, c.currentIndex) (by simp))
      | some e =>
          have hih := ih (onFailure c c.currentIndex e) (attempt + 1)
          simp only [annotateAux, ho, List.length_cons, List.mem_cons]
          constructor
          · intro hres
            obtain ⟨hl, hall⟩ := hih.mp hres
            refine ⟨by omega, ?_⟩
            intro p hp
            rcases hp with hp | hp
            · subst hp
              simp [ho]
            · exact hall p hp
          · intro hrhs
            obtain ⟨hl, hall⟩ := hrhs
            exact hih.mpr ⟨by omega, fun p hp => hall p (Or.inr hp)⟩

/-- Claim C4, amended: `Annotate` returns the all-providers-failed
error exactly when all `len(providers)` loop attempts failed; since each
attempt goes to the provider selected by `currentIndex`, the same
provider may be tried repeatedly, so the error does not imply that
every configured provider was tried. -/
theorem C4_all_failed_iff_all_attempts_failed
    (oracle : Nat → Nat → Option (List Char)) (c : MPC) :
    (Annotate oracle c).1 = .allProvidersFailed ↔
      ((Annotate oracle c).2.2.length = c.numProviders ∧
       ∀ p ∈ (Annotate oracle c).2.2, oracle p.1 p.2 ≠ none) :=
  annotateAux_allFailed_iff oracle c.numProviders c 0

/-- Claim C4, counterexample: two configured providers with threshold 3
and a plain (non-rate-limit) persistent failure: both attempts of one
`Annotate` call go to provider 0, the call returns the all-providers-
failed error, yet provider 1 was never tried on the round. -/
theorem C4_counterexample :
    (Annotate (fun _ _ => some ['x']) ⟨2, 0, fun _ => 0, 3⟩).1 = .allProvidersFailed ∧
    1 < (⟨2, 0, fun _ => 0, 3⟩ : MPC).numProviders ∧
    1 ∉ ((Annotate (fun _ _ => some ['x']) ⟨2, 0, fun _ => 0, 3⟩).2.2.map Prod.snd) := by
  refine ⟨by rfl, by decide, by decide⟩

end SED

namespace SED

theorem onFailure_spec (c : MPC) (e : List Char) :
    (onFailure c c.currentIndex e).failureCount c.currentIndex
        = c.failureCount c.currentIndex + 1 ∧
    (onFailure c c.currentIndex e).maxFailures = c.maxFailures ∧
    (onFailure c c.currentIndex e).numProviders = c.numProviders ∧
    (onFailure c c.currentIndex e).currentIndex =
      (if c.failureCount c.currentIndex + 1 ≥ c.maxFailures ∨ isRateLimitError e = true
       then (c.currentIndex + 1) % c.numProviders else c.currentIndex) := by
  unfold onFailure recordFailure switchToNextProvider
  by_cases h1 : c.failureCount c.currentIndex + 1 ≥ c.maxFailures
  · simp [h1]
  · by_cases h2 : isRateLimitError e = true
    · simp [h1, h2]
    · simp [h1, h2]

/-- Consecutive plain failures on the active provider inside the
`Annotate` loop, iterated. -/
def failStreak (e : List Char) : Nat → MPC → MPC
  | 0, c => c
  | k + 1, c => failStreak e k (onFailure c c.currentIndex e)

theorem failStreak_add (e : List Char) (a b : Nat) :
    ∀ c : MPC, failStreak e (a + b) c = failStreak e b (failStreak e a c) := by
  induction a with
  | zero => intro c; simp [failStreak]
  | succ n ih =>
      intro c
      have : n + 1 + b = (n + b) + 1 := by omega
      rw [this, failStreak, failStreak, ih]

theorem failStreak_stable (e : List Char) (hne : isRateLimitError e = false) :
    ∀ (k : Nat) (c : MPC), c.failureCount c.currentIndex + k < c.maxFailures →
      (failStreak e k c).currentIndex = c.currentIndex ∧
      (failStreak e k c).failureCount c.currentIndex = c.failureCount c.currentIndex + k ∧
      (failStreak e k c).maxFailures = c.maxFailures ∧
      (failStreak e k c).numProviders = c.numProviders := by
  intro k
  induction k with
  | zero =>
      intro c h
      exact ⟨rfl, rfl, rfl, rfl⟩
  | succ n ih =>
      intro c h
      rw [failStreak]
      obtain ⟨hcnt, hmaxf, hnum, hidx⟩ := onFailure_spec c e
      have hnosw : (onFailure c c.currentIndex e).currentIndex = c.currentIndex := by
        rw [hidx, if_neg]
        rw [hne]
        simp
        omega
      have hrec := ih (onFailure c c.currentIndex e) (by rw [hnosw, hcnt, hmaxf]; omega)
      obtain ⟨r1, r2, r3, r4⟩ := hrec
      rw [hnosw] at r1 r2
      rw [hcnt] at r2
      rw [hmaxf] at r3
      rw [hnum] at r4
      exact ⟨r1, by rw [r2]; omega, r3, r4⟩

/-- Claim C5: on each failure the active provider's counter increments,
and `currentIndex` advances to `(currentIndex + 1) mod n` exactly when
the incremented counter reaches `maxFailures` or the error carries a
rate-limit signature (429 / quota / rate limit); a rate-limit failure
switches immediately regardless of the counter; a success resets the
provider's counter to zero; and from a zero counter, `currentIndex` is
unchanged by the first `maxFailures - 1` consecutive plain failures and
has advanced cyclically by one after exactly `maxFailures` of them. -/
theorem C5_failover_switch_discipline (c d : MPC) (e : List Char) (i : Nat)
    (h0 : c.failureCount c.currentIndex = 0)
    (hne : isRateLimitError e = false)
    (hmax : 1 ≤ c.maxFailures) :
    ((∀ err : List Char,
        (onFailure d d.currentIndex err).failureCount d.currentIndex
          = d.failureCount d.currentIndex + 1 ∧
        (onFailure d d.currentIndex err).currentIndex =
          (if d.failureCount d.currentIndex + 1 ≥ d.maxFailures ∨ isRateLimitError err = true
           then (d.currentIndex + 1) % d.numProviders else d.currentIndex)) ∧
     (∀ errRL : List Char, isRateLimitError errRL = true →
        (onFailure d d.currentIndex errRL).currentIndex
          = (d.currentIndex + 1) % d.numProviders) ∧
     (resetFailureCount d i).failureCount i = 0) ∧
    (∀ k < c.maxFailures, (failStreak e k c).currentIndex = c.currentIndex) ∧
    (failStreak e c.maxFailures c).currentIndex = (c.currentIndex + 1) % c.numProviders := by
  refine ⟨⟨?_, ?_, ?_⟩, ?_, ?_⟩
  · intro err
    obtain ⟨hcnt, _, _, hidx⟩ := onFailure_spec d err
    exact ⟨hcnt, hidx⟩
  · intro errRL hRL
    obtain ⟨_, _, _, hidx⟩ := onFailure_spec d errRL
    rw [hidx, if_pos (Or.inr hRL)]
  · simp [resetFailureCount]
  · intro k hk
    exact (failStreak_stable e hne k c (by omega)).1
  · have hsplit : c.maxFailures = (c.maxFailures - 1) + 1 := by omega
    rw [hsplit, failStreak_add]
    obtain ⟨s1, s2, s3, s4⟩ := failStreak_stable e hne (c.maxFailures - 1) c (by omega)
    set c2 := failStreak e (c.maxFailures - 1) c with hc2
    obtain ⟨hcnt, hmaxf, hnum, hidx⟩ := onFailure_spec c2 e
    show (failStreak e 0 (onFailure c2 c2.currentIndex e)).currentIndex = _
    rw [failStreak, hidx, if_pos]
    · rw [s1, s4]
    · left
      rw [s1, s2, h0, s3]
      omega

theorem C5_witness :
    (failStreak ['x'] 3 (⟨2, 0, fun _ => 0, 3⟩ : MPC)).currentIndex = (0 + 1) % 2 :=
  (C5_failover_switch_discipline ⟨2, 0, fun _ => 0, 3⟩ ⟨2, 1, fun j => j, 3⟩ ['x'] 0
    (by rfl) (by rfl) (by decide)).2.2

end SED


namespace SED

/-! ## Message processor cycle (Go message_processor.Processor.Run)

The per-chat portion of one polling cycle: for each fetched message,
encrypt the body, persist it, raise the running max id, classify via the
annotation client, persist the ML dataset entry, and persist an incident
when the category is not neutral (id 9); finally advance the stored
cursor when the running max exceeds it. Repository and network outcomes
are injected per item. -/

/-- Classification outcome delivered by the annotation client. -/
structure Ann where
  categoryId : Nat
  categoryName : List Char
  deriving DecidableEq, Repr

/-- One message fetched from the collector. -/
structure Msg where
  id : Int
  text : List Char
  deriving DecidableEq, Repr

/-- Injected per-item repository and classification outcomes:
whether `SaveMessage` succeeds, the annotation result (`none` models an
annotation error), and whether the dataset and incident saves succeed. -/
structure ItemEnv where
  saveOk : Bool
  annRes : Option Ann
  mlSaveOk : Bool
  incidentSaveOk : Bool
  deriving DecidableEq, Repr

/-- Durable records accumulated during a cycle, plus the running
`maxMessageID` the loop maintains. -/
structure CycleState where
  maxMessageId : Int
  savedMessages : List Int
  mlEntries : List Int
  incidents : List (Int × List Char × List Char)
  deriving DecidableEq, Repr

/-- Incident lifecycle status assigned at creation. -/
def statusNew : List Char := ['n', 'e', 'w']

/-- The `SaveMessage` effect: the encrypted record becomes durable. -/
def savePhase (msg : Msg) (st : CycleState) : CycleState :=
  { st with savedMessages := st.savedMessages ++ [msg.id] }

/-- The `if msg.ID > maxMessageID` update after a successful save. -/
def maxPhase (msg : Msg) (st : CycleState) : CycleState :=
  if msg.id > st.maxMessageId then { st with maxMessageId := msg.id } else st

/-- The classification tail of one item iteration (annotation-service
branch): on annotation success save the ML dataset entry, and when the
category is not the neutral id 9, encrypt a summary (empty string if
that encryption fails) and save an Incident with status new. -/
def classifyPhase (encryptFn : List Char → Except CryptoErr (List Char))
    (msg : Msg) (env : ItemEnv) (st2 : CycleState) : CycleState :=
  match env.annRes with
  | none => st2
  | some ann =>
    let st3 := if env.mlSaveOk then { st2 with mlEntries := st2.mlEntries ++ [msg.id] } else st2
    if ann.categoryId ≠ 9 then
      let summary := match encryptFn msg.text with
        | .ok s => s
        | .error _ => []
      if env.incidentSaveOk then
        { st3 with incidents := st3.incidents ++ [(msg.id, statusNew, summary)] }
      else st3
    else st3

/-- One iteration of the message loop of `Processor.Run`: encrypt the
body (skip the item on failure), save the message (skip on failure),
raise the running max id, then classify. -/
def processItem (encryptFn : List Char → Except CryptoErr (List Char))
    (msg : Msg) (env : ItemEnv) (st : CycleState) : CycleState :=
  match encryptFn msg.text with
  | .error _ => st
  | .ok _content =>
    if env.saveOk = false then st
    else classifyPhase encryptFn msg env (maxPhase msg (savePhase msg st))

/-- The fold step over the fetched messages. -/
def cycleStep (encryptFn : List Char → Except CryptoErr (List Char))
    (st : CycleState) (p : Msg × ItemEnv) : CycleState :=
  processItem encryptFn p.1 p.2 st

/-- One whole per-chat cycle: process every fetched message in order,
then advance the stored cursor to the running max when it grew (the
update itself may fail, leaving the cursor unchanged). -/
def processCycle (encryptFn : List Char → Except CryptoErr (List Char))
    (cursor : Int) (items : List (Msg × ItemEnv)) (cursorUpdateOk : Bool) :
    CycleState × Int :=
  let stF := items.foldl (cycleStep encryptFn)
    { maxMessageId := cursor, savedMessages := [], mlEntries := [], incidents := [] }
  let cursor2 :=
    if stF.maxMessageId > cursor then
      (if cursorUpdateOk then stF.maxMessageId else cursor)
    else cursor
  (stF, cursor2)

/-- The max-update step of the loop, as a binary operation. -/
def imax (a b : Int) : Int := if b > a then b else a

/-- Largest id among a list of recorded ids, seeded with the cursor. -/
def savedMax (cursor : Int) (ids : List Int) : Int := ids.foldl imax cursor

/-- Largest id among the fetched items, seeded with the cursor. -/
def maxIdSeen (cursor : Int) (items : List (Msg × ItemEnv)) : Int :=
  (items.map (fun p => p.1.id)).foldl imax cursor

/-- Cursor evolution across a sequence of cycles. -/
def runCycles (encryptFn : List Char → Except CryptoErr (List Char)) :
    Int → List (List (Msg × ItemEnv) × Bool) → Int
  | cursor, [] => cursor
  | cursor, cy :: rest => runCycles encryptFn (processCycle encryptFn cursor cy.1 cy.2).2 rest

theorem imax_eq_right (a b : Int) (h : b > a) : imax a b = b := by
  unfold imax
  rw [if_pos h]

theorem imax_eq_left (a b : Int) (h : ¬ b > a) : imax a b = a := by
  unfold imax
  rw [if_neg h]

theorem le_imax_left (a b : Int) : a ≤ imax a b := by
  unfold imax
  by_cases h : b > a
  · rw [if_pos h]
    omega
  · rw [if_neg h]

theorem le_imax_right (a b : Int) : b ≤ imax a b := by
  unfold imax
  by_cases h : b > a
  · rw [if_pos h]
  · rw [if_neg h]
    omega

theorem imax_cases (a b : Int) : imax a b = a ∨ imax a b = b := by
  unfold imax
  by_cases h : b > a
  · rw [if_pos h]
    exact Or.inr rfl
  · rw [if_neg h]
    exact Or.inl rfl

theorem classifyPhase_preserves (encryptFn : List Char → Except CryptoErr (List Char))
    (msg : Msg) (env : ItemEnv) (st : CycleState) :
    (classifyPhase encryptFn msg env st).savedMessages = st.savedMessages ∧
    (classifyPhase encryptFn msg env st).maxMessageId = st.maxMessageId := by
  unfold classifyPhase
  cases env.annRes with
  | none => exact ⟨rfl, rfl⟩
  | some ann =>
      by_cases hml : env.mlSaveOk = true <;>
      by_cases hcat : ann.categoryId = 9 <;>
      by_cases hinc : env.incidentSaveOk = true <;>
        simp [hml, hcat, hinc]

theorem maxPhase_fields (msg : Msg) (st : CycleState) :
    (maxPhase msg st).maxMessageId = imax st.maxMessageId msg.id ∧
    (maxPhase msg st).savedMessages = st.savedMessages := by
  unfold maxPhase imax
  by_cases h : msg.id > st.maxMessageId
  · rw [if_pos h, if_pos h]
    exact ⟨rfl, rfl⟩
  · rw [if_neg h, if_neg h]
    exact ⟨rfl, rfl⟩

theorem processItem_cases (encryptFn : List Char → Except CryptoErr (List Char))
    (msg : Msg) (env : ItemEnv) (st : CycleState) :
    processItem encryptFn msg env st = st ∨
    ((processItem encryptFn msg env st).savedMessages = st.savedMessages ++ [msg.id] ∧
     (processItem encryptFn msg env st).maxMessageId = imax st.maxMessageId msg.id) := by
  unfold processItem
  cases hef : encryptFn msg.text with
  | error e => exact Or.inl rfl
  | ok content =>
      by_cases hs : env.saveOk = false
      · rw [if_pos hs]
        exact Or.inl rfl
      · rw [if_neg hs]
        right
        obtain ⟨p1, p2⟩ := classifyPhase_preserves encryptFn msg env (maxPhase msg (savePhase msg st))
        obtain ⟨m1, m2⟩ := maxPhase_fields msg (savePhase msg st)
        refine ⟨?_, ?_⟩
        · rw [p1, m2]
          rfl
        · rw [p2, m1]
          rfl

theorem le_foldl_imax : ∀ (ids : List Int) (a : Int), a ≤ ids.foldl imax a := by
  intro ids
  induction ids with
  | nil => intro a; exact le_refl a
  | cons x xs ih =>
      intro a
      rw [List.foldl_cons]
      exact le_trans (le_imax_left a x) (ih (imax a x))

theorem foldl_imax_mem : ∀ (ids : List Int) (a : Int),
    ids.foldl imax a = a ∨ ids.foldl imax a ∈ ids := by
  intro ids
  induction ids with
  | nil => intro a; exact Or.inl rfl
  | cons x xs ih =>
      intro a
      rw [List.foldl_cons]
      rcases ih (imax a x) with h | h
      · rcases imax_cases a x with hh | hh
        · exact Or.inl (h.trans hh)
        · right
          rw [h.trans hh]
          exact List.mem_cons_self x xs
      · right
        exact List.mem_cons_of_mem x h

theorem foldl_imax_elem_le : ∀ (ids : List Int) (a x : Int), x ∈ ids → x ≤ ids.foldl imax a := by
  intro ids
  induction ids with
  | nil => intro a x hx; cases hx
  | cons y ys ih =>
      intro a x hx
      rw [List.foldl_cons]
      rcases List.mem_cons.mp hx with h | h
      · subst h
        exact le_trans (le_imax_right a x) (le_foldl_imax ys (imax a x))
      · exact ih (imax a y) x h

theorem savedMax_append_single (cursor : Int) (l : List Int) (x : Int) :
    savedMax cursor (l ++ [x]) = imax (savedMax cursor l) x := by
  unfold savedMax
  rw [List.foldl_append, List.foldl_cons, List.foldl_nil]

theorem cycle_foldl_inv (encryptFn : List Char → Except CryptoErr (List Char))
    (cursor : Int) :
    ∀ (items : List (Msg × ItemEnv)) (st : CycleState),
      st.maxMessageId = savedMax cursor st.savedMessages →
      (items.foldl (cycleStep encryptFn) st).maxMessageId =
        savedMax cursor (items.foldl (cycleStep encryptFn) st).savedMessages := by
  intro items
  induction items with
  | nil => intro st h; exact h
  | cons p ps ih =>
      intro st h
      rw [List.foldl_cons]
      apply ih
      show (processItem encryptFn p.1 p.2 st).maxMessageId =
        savedMax cursor (processItem encryptFn p.1 p.2 st).savedMessages
      rcases processItem_cases encryptFn p.1 p.2 st with hcase | ⟨h1, h2⟩
      · rw [hcase]
        exact h
      · rw [h1, h2, savedMax_append_single, h]

theorem processCycle_inv (encryptFn : List Char → Except CryptoErr (List Char))
    (cursor : Int) (items : List (Msg × ItemEnv)) (uok : Bool) :
    (processCycle encryptFn cursor items uok).1.maxMessageId =
      savedMax cursor (processCycle encryptFn cursor items uok).1.savedMessages := by
  simp only [processCycle]
  exact cycle_foldl_inv encryptFn cursor items _ rfl

theorem cursor_le_processCycle (encryptFn : List Char → Except CryptoErr (List Char))
    (cursor : Int) (items : List (Msg × ItemEnv)) (uok : Bool) :
    cursor ≤ (processCycle encryptFn cursor items uok).2 := by
  simp only [processCycle]
  split
  · split
    · omega
    · omega
  · omega

theorem cursor_le_runCycles (encryptFn : List Char → Except CryptoErr (List Char)) :
    ∀ (cycles : List (List (Msg × ItemEnv) × Bool)) (cursor : Int),
      cursor ≤ runCycles encryptFn cursor cycles := by
  intro cycles
  induction cycles with
  | nil => intro cursor; exact le_refl cursor
  | cons cy rest ih =>
      intro cursor
      rw [runCycles]
      exact le_trans (cursor_le_processCycle encryptFn cursor cy.1 cy.2)
        (ih (processCycle encryptFn cursor cy.1 cy.2).2)

end SED

namespace SED

theorem maxPhase_keeps (msg : Msg) (st : CycleState) :
    (maxPhase msg st).mlEntries = st.mlEntries ∧
    (maxPhase msg st).incidents = st.incidents := by
  unfold maxPhase
  by_cases h : msg.id > st.maxMessageId
  · rw [if_pos h]
    exact ⟨rfl, rfl⟩
  · rw [if_neg h]
    exact ⟨rfl, rfl⟩

theorem processCycle_cursor_cases (encryptFn : List Char → Except CryptoErr (List Char))
    (cursor : Int) (items : List (Msg × ItemEnv)) (uok : Bool) :
    (processCycle encryptFn cursor items uok).2 = cursor ∨
    ((processCycle encryptFn cursor items uok).2 =
        (processCycle encryptFn cursor items uok).1.maxMessageId ∧
      cursor < (processCycle encryptFn cursor items uok).1.maxMessageId) := by
  simp only [processCycle]
  split
  · split
    · right
      exact ⟨rfl, by omega⟩
    · left
      rfl
  · left
    rfl

/-- Claim C8, amended: a conversation's stored cursor never decreases,
within one cycle and across any sequence of cycles; each cycle either
leaves it unchanged or sets it to the largest id among the messages
successfully persisted in the cycle (the running max is seeded with the
current cursor and only ever raised, and is raised only by items whose
encrypted record was saved, so a failed item with the largest fetched id
does not advance the cursor). -/
theorem C8_cursor_monotone (encryptFn : List Char → Except CryptoErr (List Char))
    (cursor : Int) (items : List (Msg × ItemEnv)) (uok : Bool) :
    cursor ≤ (processCycle encryptFn cursor items uok).2 ∧
    ((processCycle encryptFn cursor items uok).2 = cursor ∨
     (processCycle encryptFn cursor items uok).2 =
       savedMax cursor (processCycle encryptFn cursor items uok).1.savedMessages) ∧
    ∀ cycles : List (List (Msg × ItemEnv) × Bool),
      cursor ≤ runCycles encryptFn cursor cycles := by
  refine ⟨cursor_le_processCycle encryptFn cursor items uok, ?_,
    fun cycles => cursor_le_runCycles encryptFn cycles cursor⟩
  rcases processCycle_cursor_cases encryptFn cursor items uok with h | ⟨h, _⟩
  · exact Or.inl h
  · right
    rw [h]
    exact processCycle_inv encryptFn cursor items uok

/-- Claim C8, counterexample: with items (id 5, save succeeds) and
(id 10, save fails) and cursor 0, the cycle sets the cursor to 5, which
is neither the old cursor nor the maximum item id seen (10): the claim's
description of the advanced value is wrong when the item bearing the
maximum id fails. -/
theorem C8_counterexample :
    ¬ ((processCycle (fun t => Except.ok t) 0
          [(⟨5, ['a']⟩, ⟨true, none, true, true⟩), (⟨10, ['b']⟩, ⟨false, none, true, true⟩)]
          true).2 = 0 ∨
       (processCycle (fun t => Except.ok t) 0
          [(⟨5, ['a']⟩, ⟨true, none, true, true⟩), (⟨10, ['b']⟩, ⟨false, none, true, true⟩)]
          true).2 =
        maxIdSeen 0
          [(⟨5, ['a']⟩, ⟨true, none, true, true⟩), (⟨10, ['b']⟩, ⟨false, none, true, true⟩)]) := by
  decide

/-- Claim C1, amended: when a cycle advances the cursor, the new cursor
value is the id of a message whose encrypted record was durably saved in
that cycle, and every id saved in the cycle is at most the new cursor;
items whose encryption or persistence failed are skipped and may have
ids below the advanced cursor without having been recorded. -/
theorem C1_advanced_cursor_over_recorded (encryptFn : List Char → Except CryptoErr (List Char))
    (cursor : Int) (items : List (Msg × ItemEnv)) (uok : Bool)
    (h : cursor < (processCycle encryptFn cursor items uok).2) :
    (processCycle encryptFn cursor items uok).2 ∈
      (processCycle encryptFn cursor items uok).1.savedMessages ∧
    ∀ i ∈ (processCycle encryptFn cursor items uok).1.savedMessages,
      i ≤ (processCycle encryptFn cursor items uok).2 := by
  rcases processCycle_cursor_cases encryptFn cursor items uok with hc | ⟨hc, hlt⟩
  · rw [hc] at h
    exact absurd h (lt_irrefl cursor)
  · have hinv := processCycle_inv encryptFn cursor items uok
    constructor
    · rw [hc, hinv]
      rcases foldl_imax_mem (processCycle encryptFn cursor items uok).1.savedMessages cursor
        with hm | hm
      · exfalso
        rw [hinv] at hlt
        unfold savedMax at hlt
        omega
      · exact hm
    · intro i hi
      rw [hc, hinv]
      exact foldl_imax_elem_le _ cursor i hi

theorem C1_witness :
    ((0 : Int) < (processCycle (fun t => Except.ok t) 0
        [(⟨7, ['a']⟩, ⟨true, none, true, true⟩)] true).2) ∧
    ((processCycle (fun t => Except.ok t) 0
        [(⟨7, ['a']⟩, ⟨true, none, true, true⟩)] true).2 ∈
      (processCycle (fun t => Except.ok t) 0
        [(⟨7, ['a']⟩, ⟨true, none, true, true⟩)] true).1.savedMessages ∧
     ∀ i ∈ (processCycle (fun t => Except.ok t) 0
        [(⟨7, ['a']⟩, ⟨true, none, true, true⟩)] true).1.savedMessages,
       i ≤ (processCycle (fun t => Except.ok t) 0
        [(⟨7, ['a']⟩, ⟨true, none, true, true⟩)] true).2) :=
  ⟨by decide,
   C1_advanced_cursor_over_recorded (fun t => Except.ok t) 0
     [(⟨7, ['a']⟩, ⟨true, none, true, true⟩)] true (by decide)⟩

/-- Claim C1, counterexample: items (id 5, persistence fails) and
(id 10, all succeeds) with cursor 0: the cursor advances to 10, item 5
has id at most the new cursor, yet no encrypted record for it was saved;
the advanced cursor does not mean every fetched item with id at most the
cursor was durably recorded. -/
theorem C1_counterexample :
    ¬ (0 < (processCycle (fun t => Except.ok t) 0
          [(⟨5, ['a']⟩, ⟨false, none, true, true⟩), (⟨10, ['b']⟩, ⟨true, none, true, true⟩)]
          true).2 →
       ∀ m ∈ [((⟨5, ['a']⟩ : Msg), (⟨false, none, true, true⟩ : ItemEnv)),
              (⟨10, ['b']⟩, ⟨true, none, true, true⟩)],
         m.1.id ≤ (processCycle (fun t => Except.ok t) 0
            [(⟨5, ['a']⟩, ⟨false, none, true, true⟩), (⟨10, ['b']⟩, ⟨true, none, true, true⟩)]
            true).2 →
         m.1.id ∈ (processCycle (fun t => Except.ok t) 0
            [(⟨5, ['a']⟩, ⟨false, none, true, true⟩), (⟨10, ['b']⟩, ⟨true, none, true, true⟩)]
            true).1.savedMessages) := by
  decide

theorem classifyPhase_spec (encryptFn : List Char → Except CryptoErr (List Char))
    (msg : Msg) (env : ItemEnv) (st : CycleState) (ann : Ann) (ct : List Char)
    (henc : encryptFn msg.text = .ok ct) (hann : env.annRes = some ann)
    (hml : env.mlSaveOk = true) (hinc : env.incidentSaveOk = true) :
    (classifyPhase encryptFn msg env st).mlEntries = st.mlEntries ++ [msg.id] ∧
    (classifyPhase encryptFn msg env st).incidents =
      st.incidents ++ (if ann.categoryId ≠ 9 then [(msg.id, statusNew, ct)] else []) := by
  by_cases hcat : ann.categoryId = 9
  · simp [classifyPhase, hann, hml, hcat]
  · simp [classifyPhase, hann, hml, hcat, hinc, henc]

/-- Claim C7: for an item whose encrypted record is saved and whose
classification succeeds (with the dataset and incident saves able to
succeed), the encrypted record and the ML dataset entry are persisted,
and an Incident with status new and non-empty encrypted summary is
persisted if and only if the predicted category is not the neutral id 9;
for the neutral category no Incident is created. -/
theorem C7_incident_iff_not_neutral (encryptFn : List Char → Except CryptoErr (List Char))
    (msg : Msg) (env : ItemEnv) (st : CycleState) (ann : Ann) (ct : List Char)
    (henc : encryptFn msg.text = .ok ct) (hct : ct ≠ [])
    (hsave : env.saveOk = true) (hann : env.annRes = some ann)
    (hml : env.mlSaveOk = true) (hinc : env.incidentSaveOk = true) :
    (processItem encryptFn msg env st).savedMessages = st.savedMessages ++ [msg.id] ∧
    (processItem encryptFn msg env st).mlEntries = st.mlEntries ++ [msg.id] ∧
    (ann.categoryId ≠ 9 →
      (processItem encryptFn msg env st).incidents =
        st.incidents ++ [(msg.id, statusNew, ct)] ∧ ct ≠ []) ∧
    (ann.categoryId = 9 →
      (processItem encryptFn msg env st).incidents = st.incidents) := by
  have hs2 : ¬ env.saveOk = false := by
    rw [hsave]
    simp
  have hred : processItem encryptFn msg env st =
      classifyPhase encryptFn msg env (maxPhase msg (savePhase msg st)) := by
    unfold processItem
    rw [henc, if_neg hs2]
  obtain ⟨c1, c2⟩ := classifyPhase_spec encryptFn msg env (maxPhase msg (savePhase msg st))
    ann ct henc hann hml hinc
  obtain ⟨p1, p2⟩ := classifyPhase_preserves encryptFn msg env (maxPhase msg (savePhase msg st))
  obtain ⟨m1, m2⟩ := maxPhase_fields msg (savePhase msg st)
  obtain ⟨k1, k2⟩ := maxPhase_keeps msg (savePhase msg st)
  refine ⟨?_, ?_, ?_, ?_⟩
  · rw [hred, p1, m2]
    rfl
  · rw [hred, c1, k1]
    rfl
  · intro hcat
    refine ⟨?_, hct⟩
    rw [hred, c2, k2]
    simp [hcat, savePhase]
  · intro hcat
    rw [hred, c2, k2]
    simp [hcat, savePhase]

theorem C7_witness :
    (processItem (fun t => Except.ok ('c' :: t)) ⟨5, ['h']⟩
        ⟨true, some ⟨7, ['f']⟩, true, true⟩ ⟨0, [], [], []⟩).savedMessages = [] ++ [5] ∧
    (processItem (fun t => Except.ok ('c' :: t)) ⟨5, ['h']⟩
        ⟨true, some ⟨7, ['f']⟩, true, true⟩ ⟨0, [], [], []⟩).mlEntries = [] ++ [5] ∧
    ((7 : Nat) ≠ 9 →
      (processItem (fun t => Except.ok ('c' :: t)) ⟨5, ['h']⟩
          ⟨true, some ⟨7, ['f']⟩, true, true⟩ ⟨0, [], [], []⟩).incidents =
        [] ++ [(5, statusNew, ['c', 'h'])] ∧ (['c', 'h'] : List Char) ≠ []) ∧
    ((7 : Nat) = 9 →
      (processItem (fun t => Except.ok ('c' :: t)) ⟨5, ['h']⟩
          ⟨true, some ⟨7, ['f']⟩, true, true⟩ ⟨0, [], [], []⟩).incidents = []) :=
  C7_incident_iff_not_neutral (fun t => Except.ok ('c' :: t)) ⟨5, ['h']⟩
    ⟨true, some ⟨7, ['f']⟩, true, true⟩ ⟨0, [], [], []⟩ ⟨7, ['f']⟩ ['c', 'h']
    (by rfl) (by decide) (by rfl) (by rfl) (by rfl) (by rfl)

/-- Claim C9: a classification dataset record referencing an item is
persisted only if the item's encrypted record was persisted in the same
iteration, and an item whose encryption or persistence fails produces no
record at all (in particular no classification result and no incident). -/
theorem C9_no_classification_without_record
    (encryptFn : List Char → Except CryptoErr (List Char))
    (msg : Msg) (env : ItemEnv) (st : CycleState)
    (hfresh : msg.id ∉ st.mlEntries) :
    (msg.id ∈ (processItem encryptFn msg env st).mlEntries →
      msg.id ∈ (processItem encryptFn msg env st).savedMessages) ∧
    (((∃ er, encryptFn msg.text = .error er) ∨ env.saveOk = false) →
      processItem encryptFn msg env st = st) := by
  constructor
  · rcases processItem_cases encryptFn msg env st with hcase | ⟨h1, _⟩
    · intro hmem
      rw [hcase] at hmem
      exact absurd hmem hfresh
    · intro hmem
      rw [h1]
      exact List.mem_append.mpr (Or.inr (List.mem_singleton.mpr rfl))
  · intro hskip
    unfold processItem
    rcases hskip with ⟨er, her⟩ | hsave
    · rw [her]
    · cases hef : encryptFn msg.text with
      | error e => rfl
      | ok content => rw [if_pos hsave]

theorem C9_witness :
    ((3 : Int) ∈ (processItem (fun t => Except.ok t) ⟨3, ['a']⟩
        ⟨true, some ⟨9, ['n']⟩, true, true⟩ ⟨0, [], [], []⟩).mlEntries →
      (3 : Int) ∈ (processItem (fun t => Except.ok t) ⟨3, ['a']⟩
        ⟨true, some ⟨9, ['n']⟩, true, true⟩ ⟨0, [], [], []⟩).savedMessages) ∧
    (((∃ er, (Except.ok ['a'] : Except CryptoErr (List Char)) = Except.error er) ∨
        true = false) →
      processItem (fun t => Except.ok t) ⟨3, ['a']⟩
        ⟨true, some ⟨9, ['n']⟩, true, true⟩ ⟨0, [], [], []⟩ = ⟨0, [], [], []⟩) :=
  C9_no_classification_without_record (fun t => Except.ok t) ⟨3, ['a']⟩
    ⟨true, some ⟨9, ['n']⟩, true, true⟩ ⟨0, [], [], []⟩ (by decide)

end SED
